import Mathlib

/-
Verification of the Jottask core against its source: subject normalization,
action-tier classification, the classification fallback, the per-cycle subject
collapse of the mailbox poller, connection sync stamping, the reminder and daily
summary scheduler, and the pending-action approval state machine.  The Python
source is embedded shallowly: stateful code becomes explicit state passing,
timestamps are modelled as seconds in the relevant local timezone, and database
tables become lists of records.
-/

namespace Jottask


/-- Python str.lower restricted to ASCII letters, mirroring the CPython behaviour
on the ASCII range used by subject tags. -/
def lowerChar (c : Char) : Char :=
  if 65 ≤ c.toNat ∧ c.toNat ≤ 90 then Char.ofNat (c.toNat + 32) else c

theorem toNat_ofNat_of_lt (n : Nat) (h : n < 55296) : (Char.ofNat n).toNat = n := by
  rw [Char.ofNat, dif_pos (Or.inl h)]
  simp [Char.ofNatAux, Char.toNat, UInt32.toNat]

theorem toNat_lowerChar (c : Char) :
    (lowerChar c).toNat = if 65 ≤ c.toNat ∧ c.toNat ≤ 90 then c.toNat + 32 else c.toNat := by
  unfold lowerChar
  split
  · rename_i h
    exact toNat_ofNat_of_lt _ (by omega)
  · rfl

theorem charToNat_inj (c d : Char) (h : c.toNat = d.toNat) : c = d :=
  Char.ext (UInt32.toNat.inj h)

theorem lowerChar_idem (c : Char) : lowerChar (lowerChar c) = lowerChar c := by
  apply charToNat_inj
  rw [toNat_lowerChar, toNat_lowerChar]
  by_cases h : 65 ≤ c.toNat ∧ c.toNat ≤ 90
  · simp only [if_pos h]
    rw [if_neg (by omega)]
  · simp only [if_neg h]

theorem lowerChar_eq_colon (c : Char) : lowerChar c = ':' ↔ c = ':' := by
  constructor
  · intro h
    apply charToNat_inj
    have h2 : (lowerChar c).toNat = (':' : Char).toNat := by rw [h]
    rw [toNat_lowerChar] at h2
    have h3 : (':' : Char).toNat = 58 := by decide
    rw [h3]
    rw [h3] at h2
    split at h2 <;> omega
  · intro h
    subst h
    decide

/-- Python regex whitespace class over the ASCII range. -/
def isPySpace (c : Char) : Bool :=
  c.toNat == 32 || c.toNat == 9 || c.toNat == 10 || c.toNat == 13 || c.toNat == 11 || c.toNat == 12

theorem isPySpace_lowerChar (c : Char) : isPySpace (lowerChar c) = isPySpace c := by
  unfold isPySpace
  rw [toNat_lowerChar]
  by_cases h : 65 ≤ c.toNat ∧ c.toNat ≤ 90
  · simp only [if_pos h]
    have hl : ∀ m : Nat, 65 ≤ m → m ≤ 122 →
        (m == 32 || m == 9 || m == 10 || m == 13 || m == 11 || m == 12) = false := by
      intro m h1 h2
      simp only [Bool.or_eq_false_iff, beq_eq_false_iff_ne, ne_eq]
      omega
    rw [hl _ (by omega) (by omega), hl _ (by omega) (by omega)]
  · simp only [if_neg h]

/-- ordered-alternation match of a tag at the head of the list, case-insensitive,
returning the remainder; this is the group part of the regex in _normalize_subject. -/
def matchTag : List Char → List Char → Option (List Char)
  | [], rest => some rest
  | _ :: _, [] => none
  | t :: ts, c :: cs => if lowerChar c = t then matchTag ts cs else none

/-- the mandatory colon with optional surrounding whitespace of the regex. -/
def matchColonWs (l : List Char) : Option (List Char) :=
  match l.dropWhile isPySpace with
  | c :: rest => if c = ':' then some (rest.dropWhile isPySpace) else none
  | [] => none

/-- one anchored application of the regex in _normalize_subject, with the ordered
alternation re, fwd, fw and the backtracking of the Python engine. -/
def stripTagOnce (l : List Char) : Option (List Char) :=
  ((matchTag ['r', 'e'] l).bind matchColonWs).orElse (fun _ =>
    ((matchTag ['f', 'w', 'd'] l).bind matchColonWs).orElse (fun _ =>
      (matchTag ['f', 'w'] l).bind matchColonWs))

/-- Python str.strip over the modelled whitespace class. -/
def trimChars (l : List Char) : List Char :=
  ((l.dropWhile isPySpace).reverse.dropWhile isPySpace).reverse

theorem matchTag_length : ∀ (tag l r : List Char), matchTag tag l = some r → r.length ≤ l.length := by
  intro tag
  induction tag with
  | nil =>
    intro l r h
    unfold matchTag at h
    cases h
    exact le_refl _
  | cons t ts ih =>
    intro l r h
    cases l with
    | nil => exact absurd h (by simp [matchTag])
    | cons c cs =>
      unfold matchTag at h
      split at h
      · have := ih cs r h
        simp only [List.length_cons]
        omega
      · exact absurd h (by simp)

theorem dropWhile_length_le (p : Char → Bool) (l : List Char) :
    (l.dropWhile p).length ≤ l.length :=
  (List.dropWhile_sublist p).length_le

theorem trimChars_length_le (l : List Char) : (trimChars l).length ≤ l.length := by
  unfold trimChars
  rw [List.length_reverse]
  calc ((l.dropWhile isPySpace).reverse.dropWhile isPySpace).length
      ≤ (l.dropWhile isPySpace).reverse.length := dropWhile_length_le _ _
    _ = (l.dropWhile isPySpace).length := List.length_reverse _
    _ ≤ l.length := dropWhile_length_le _ _

theorem matchColonWs_length_lt (l r : List Char) (h : matchColonWs l = some r) :
    r.length < l.length := by
  unfold matchColonWs at h
  have h1 : (l.dropWhile isPySpace).length ≤ l.length := dropWhile_length_le _ _
  split at h
  next c rest heq =>
    split at h
    · cases h
      rw [heq] at h1
      simp only [List.length_cons] at h1
      have h2 : (rest.dropWhile isPySpace).length ≤ rest.length := dropWhile_length_le _ _
      omega
    · exact absurd h (by simp)
  next => exact absurd h (by simp)

theorem bindColon_length_lt (tag l r : List Char)
    (h : (matchTag tag l).bind matchColonWs = some r) : r.length < l.length := by
  cases htag : matchTag tag l with
  | none => rw [htag] at h; exact absurd h (by simp)
  | some rest =>
    rw [htag] at h
    simp only [Option.some_bind] at h
    have := matchColonWs_length_lt rest r h
    have := matchTag_length tag l rest htag
    omega

theorem stripTagOnce_length_lt (l r : List Char) (h : stripTagOnce l = some r) :
    r.length < l.length := by
  unfold stripTagOnce at h
  cases h1 : (matchTag ['r', 'e'] l).bind matchColonWs with
  | some r1 =>
    rw [h1] at h
    simp only [Option.orElse] at h
    cases h
    exact bindColon_length_lt _ _ _ h1
  | none =>
    rw [h1] at h
    simp only [Option.orElse] at h
    cases h2 : (matchTag ['f', 'w', 'd'] l).bind matchColonWs with
    | some r2 =>
      rw [h2] at h
      simp only [Option.orElse] at h
      cases h
      exact bindColon_length_lt _ _ _ h2
    | none =>
      rw [h2] at h
      simp only [Option.orElse] at h
      exact bindColon_length_lt _ _ _ h

/-- bounded iteration of the anchored regex removal; the fuel is always sufficient
because each successful removal strictly shortens the list, so with fuel at least
the list length this computes the while-loop of _normalize_subject. -/
def stripLoopFuel : Nat → List Char → List Char
  | 0, l => l
  | fuel + 1, l =>
    match stripTagOnce l with
    | none => l
    | some rest => stripLoopFuel fuel (trimChars rest)

/-- the while-loop of _normalize_subject: repeatedly strip the anchored tag. -/
def stripLoop (l : List Char) : List Char := stripLoopFuel l.length l

theorem stripTagOnce_nil : stripTagOnce [] = none := rfl

theorem stripLoopFuel_of_none (fuel : Nat) (l : List Char) (h : stripTagOnce l = none) :
    stripLoopFuel fuel l = l := by
  cases fuel with
  | zero => rfl
  | succ n => unfold stripLoopFuel; rw [h]

theorem stripLoopFuel_fix (fuel : Nat) :
    ∀ l : List Char, l.length ≤ fuel → stripTagOnce (stripLoopFuel fuel l) = none := by
  induction fuel with
  | zero =>
    intro l hl
    have hnil : l = [] := List.length_eq_zero.mp (Nat.le_zero.mp hl)
    subst hnil
    rfl
  | succ n ih =>
    intro l hl
    unfold stripLoopFuel
    cases h : stripTagOnce l with
    | none => exact h
    | some rest =>
      apply ih
      have h1 := stripTagOnce_length_lt l rest h
      have h2 := trimChars_length_le rest
      omega

theorem stripLoop_fix (l : List Char) : stripTagOnce (stripLoop l) = none :=
  stripLoopFuel_fix l.length l (le_refl _)

/-- the whole of _normalize_subject: strip, repeatedly remove the anchored tag
with re-stripping after each removal, then lowercase. -/
def normalize_subject (s : String) : String :=
  if s = "" then ""
  else String.mk ((stripLoop (trimChars s.toList)).map lowerChar)

theorem dropWhile_dropWhile (p : Char → Bool) (l : List Char) :
    (l.dropWhile p).dropWhile p = l.dropWhile p := by
  induction l with
  | nil => rfl
  | cons c cs ih =>
    rw [List.dropWhile_cons]
    by_cases hc : p c
    · rw [if_pos hc]; exact ih
    · rw [if_neg hc, List.dropWhile_cons, if_neg hc]

theorem noLead_of_pre (k m : List Char) (hpre : k <+: m)
    (hm : m.dropWhile isPySpace = m) : k.dropWhile isPySpace = k := by
  cases k with
  | nil => rfl
  | cons c cs =>
    cases m with
    | nil => rcases hpre with ⟨t, ht⟩; exact absurd ht (by simp)
    | cons d ds =>
      have hcd : c = d := by
        rcases hpre with ⟨t, ht⟩
        exact (List.cons.injEq _ _ _ _ ▸ ht : _ ∧ _).1.symm ▸ rfl
      rw [List.dropWhile_cons] at hm ⊢
      by_cases hd : isPySpace d
      · rw [if_pos hd] at hm
        have := dropWhile_length_le isPySpace ds
        rw [hm] at this
        simp only [List.length_cons] at this
        omega
      · subst hcd
        rw [if_neg hd]

theorem trimChars_noLead (l : List Char) :
    (trimChars l).dropWhile isPySpace = trimChars l := by
  apply noLead_of_pre _ (l.dropWhile isPySpace)
  · unfold trimChars
    have hsuf : ((l.dropWhile isPySpace).reverse.dropWhile isPySpace) <:+
        (l.dropWhile isPySpace).reverse := List.dropWhile_suffix _
    have := List.reverse_prefix.mpr hsuf
    rwa [List.reverse_reverse] at this
  · exact dropWhile_dropWhile _ _

theorem trimChars_noTrail (l : List Char) :
    (trimChars l).reverse.dropWhile isPySpace = (trimChars l).reverse := by
  unfold trimChars
  rw [List.reverse_reverse]
  exact dropWhile_dropWhile _ _

theorem trimChars_of_trimmed (l : List Char)
    (h1 : l.dropWhile isPySpace = l) (h2 : l.reverse.dropWhile isPySpace = l.reverse) :
    trimChars l = l := by
  unfold trimChars
  rw [h1, h2, List.reverse_reverse]

theorem trimChars_idem (l : List Char) : trimChars (trimChars l) = trimChars l :=
  trimChars_of_trimmed _ (trimChars_noLead l) (trimChars_noTrail l)

theorem stripLoopFuel_trimmed (fuel : Nat) :
    ∀ l : List Char, trimChars l = l → trimChars (stripLoopFuel fuel l) = stripLoopFuel fuel l := by
  induction fuel with
  | zero => intro l hl; exact hl
  | succ n ih =>
    intro l hl
    unfold stripLoopFuel
    cases h : stripTagOnce l with
    | none => exact hl
    | some rest => exact ih (trimChars rest) (trimChars_idem rest)

theorem stripLoop_trimmed (l : List Char) :
    trimChars (stripLoop (trimChars l)) = stripLoop (trimChars l) :=
  stripLoopFuel_trimmed _ _ (trimChars_idem l)

theorem matchTag_map_lower (tag : List Char) :
    ∀ l : List Char, matchTag tag (l.map lowerChar) = (matchTag tag l).map (List.map lowerChar) := by
  induction tag with
  | nil => intro l; rfl
  | cons t ts ih =>
    intro l
    cases l with
    | nil => rfl
    | cons c cs =>
      simp only [List.map_cons]
      unfold matchTag
      rw [lowerChar_idem]
      by_cases hc : lowerChar c = t
      · rw [if_pos hc, if_pos hc, ih]
      · rw [if_neg hc, if_neg hc]; rfl

theorem dropWhile_map_lower (l : List Char) :
    (l.map lowerChar).dropWhile isPySpace = (l.dropWhile isPySpace).map lowerChar := by
  rw [List.dropWhile_map]
  have hf : (isPySpace ∘ lowerChar) = isPySpace := funext isPySpace_lowerChar
  rw [hf]

theorem matchColonWs_map_lower (l : List Char) :
    matchColonWs (l.map lowerChar) = (matchColonWs l).map (List.map lowerChar) := by
  unfold matchColonWs
  rw [dropWhile_map_lower]
  cases hdw : l.dropWhile isPySpace with
  | nil => rfl
  | cons c cs =>
    simp only [List.map_cons]
    by_cases hc : c = ':'
    · subst hc
      have hl : lowerChar ':' = ':' := by decide
      rw [hl, if_pos rfl, if_pos rfl]
      simp only [Option.map_some']
      rw [dropWhile_map_lower]
    · have hlc : lowerChar c ≠ ':' := fun h => hc ((lowerChar_eq_colon c).mp h)
      rw [if_neg hlc, if_neg hc]
      rfl

theorem bindColon_map_lower (tag l : List Char) :
    (matchTag tag (l.map lowerChar)).bind matchColonWs =
      ((matchTag tag l).bind matchColonWs).map (List.map lowerChar) := by
  rw [matchTag_map_lower]
  cases matchTag tag l with
  | none => rfl
  | some rest =>
    simp only [Option.map_some', Option.some_bind]
    exact matchColonWs_map_lower rest

theorem stripTagOnce_map_lower (l : List Char) :
    stripTagOnce (l.map lowerChar) = (stripTagOnce l).map (List.map lowerChar) := by
  unfold stripTagOnce
  rw [bindColon_map_lower, bindColon_map_lower, bindColon_map_lower]
  cases (matchTag ['r', 'e'] l).bind matchColonWs with
  | some r1 => rfl
  | none =>
    cases (matchTag ['f', 'w', 'd'] l).bind matchColonWs with
    | some r2 => rfl
    | none =>
      cases (matchTag ['f', 'w'] l).bind matchColonWs with
      | some r3 => rfl
      | none => rfl

theorem trimChars_map_lower (l : List Char) :
    trimChars (l.map lowerChar) = (trimChars l).map lowerChar := by
  unfold trimChars
  rw [dropWhile_map_lower, ← List.map_reverse, dropWhile_map_lower, ← List.map_reverse]

theorem stripLoopFuel_map_lower (fuel : Nat) :
    ∀ l : List Char, stripLoopFuel fuel (l.map lowerChar) = (stripLoopFuel fuel l).map lowerChar := by
  induction fuel with
  | zero => intro l; rfl
  | succ n ih =>
    intro l
    unfold stripLoopFuel
    rw [stripTagOnce_map_lower]
    cases h : stripTagOnce l with
    | none => rfl
    | some rest =>
      simp only [Option.map_some']
      rw [trimChars_map_lower]
      exact ih (trimChars rest)

theorem stripLoop_map_lower (l : List Char) :
    stripLoop (l.map lowerChar) = (stripLoop l).map lowerChar := by
  unfold stripLoop
  rw [List.length_map]
  exact stripLoopFuel_map_lower l.length l

theorem map_lower_idem (l : List Char) :
    (l.map lowerChar).map lowerChar = l.map lowerChar := by
  rw [List.map_map]
  have hf : (lowerChar ∘ lowerChar) = lowerChar := funext lowerChar_idem
  rw [hf]

theorem toList_mk (l : List Char) : (String.mk l).toList = l := rfl

theorem normalize_subject_idem (s : String) :
    normalize_subject (normalize_subject s) = normalize_subject s := by
  by_cases hs : s = ""
  · subst hs; rfl
  · have hout : normalize_subject s = String.mk ((stripLoop (trimChars s.toList)).map lowerChar) := by
      rw [normalize_subject, if_neg hs]
    rw [hout]
    set L := stripLoop (trimChars s.toList) with hL
    by_cases ht : String.mk (L.map lowerChar) = ""
    · rw [ht]; rfl
    · rw [normalize_subject, if_neg ht, toList_mk]
      have htrim : trimChars L = L := stripLoop_trimmed s.toList
      have hfix : stripTagOnce L = none := stripLoop_fix (trimChars s.toList)
      rw [trimChars_map_lower, htrim, stripLoop_map_lower]
      have hself : stripLoop L = L := by
        unfold stripLoop
        exact stripLoopFuel_of_none _ _ hfix
      rw [hself, map_lower_idem]

theorem take3_shape (L : List Char) (a b c : Char)
    (h : (L.map lowerChar).take 3 = [a, b, c]) :
    ∃ c1 c2 c3 rest, L = c1 :: c2 :: c3 :: rest ∧
      lowerChar c1 = a ∧ lowerChar c2 = b ∧ lowerChar c3 = c := by
  cases L with
  | nil => simp at h
  | cons x1 t1 =>
    cases t1 with
    | nil => simp at h
    | cons x2 t2 =>
      cases t2 with
      | nil => simp at h
      | cons x3 t3 =>
        simp only [List.map_cons, List.take_succ_cons, List.take_zero,
          List.cons.injEq, and_true] at h
        exact ⟨x1, x2, x3, t3, rfl, h.1, h.2.1, h.2.2⟩

theorem take4_shape (L : List Char) (a b c d : Char)
    (h : (L.map lowerChar).take 4 = [a, b, c, d]) :
    ∃ c1 c2 c3 c4 rest, L = c1 :: c2 :: c3 :: c4 :: rest ∧
      lowerChar c1 = a ∧ lowerChar c2 = b ∧ lowerChar c3 = c ∧ lowerChar c4 = d := by
  cases L with
  | nil => simp at h
  | cons x1 t1 =>
    cases t1 with
    | nil => simp at h
    | cons x2 t2 =>
      cases t2 with
      | nil => simp at h
      | cons x3 t3 =>
        cases t3 with
        | nil => simp at h
        | cons x4 t4 =>
          simp only [List.map_cons, List.take_succ_cons, List.take_zero,
            List.cons.injEq, and_true] at h
          exact ⟨x1, x2, x3, x4, t4, rfl, h.1, h.2.1, h.2.2.1, h.2.2.2⟩

theorem isPySpace_colon : isPySpace ':' = false := by decide

theorem matchColonWs_colon_cons (c3 : Char) (rest : List Char) (h3 : c3 = ':') :
    matchColonWs (c3 :: rest) = some (rest.dropWhile isPySpace) := by
  subst h3
  unfold matchColonWs
  rw [List.dropWhile_cons, isPySpace_colon]
  simp

theorem stripTagOnce_re (c1 c2 c3 : Char) (rest : List Char)
    (h1 : lowerChar c1 = 'r') (h2 : lowerChar c2 = 'e') (h3 : lowerChar c3 = ':') :
    stripTagOnce (c1 :: c2 :: c3 :: rest) ≠ none := by
  have hc3 : c3 = ':' := (lowerChar_eq_colon c3).mp h3
  have hm : matchTag ['r', 'e'] (c1 :: c2 :: c3 :: rest) = some (c3 :: rest) := by
    simp only [matchTag, h1, h2, if_true, eq_self_iff_true]
  unfold stripTagOnce
  rw [hm]
  simp only [Option.some_bind, matchColonWs_colon_cons c3 rest hc3]
  simp [Option.orElse]

theorem stripTagOnce_fwd (c1 c2 c3 c4 : Char) (rest : List Char)
    (h1 : lowerChar c1 = 'f') (h2 : lowerChar c2 = 'w') (h3 : lowerChar c3 = 'd')
    (h4 : lowerChar c4 = ':') :
    stripTagOnce (c1 :: c2 :: c3 :: c4 :: rest) ≠ none := by
  have hc4 : c4 = ':' := (lowerChar_eq_colon c4).mp h4
  have hre : matchTag ['r', 'e'] (c1 :: c2 :: c3 :: c4 :: rest) = none := by
    simp only [matchTag, h1]
    simp
  have hm : matchTag ['f', 'w', 'd'] (c1 :: c2 :: c3 :: c4 :: rest) = some (c4 :: rest) := by
    simp only [matchTag, h1, h2, h3, if_true, eq_self_iff_true]
  unfold stripTagOnce
  rw [hre, hm]
  simp only [Option.none_bind, Option.some_bind, matchColonWs_colon_cons c4 rest hc4]
  simp [Option.orElse]

theorem stripTagOnce_fw (c1 c2 c3 : Char) (rest : List Char)
    (h1 : lowerChar c1 = 'f') (h2 : lowerChar c2 = 'w') (h3 : lowerChar c3 = ':') :
    stripTagOnce (c1 :: c2 :: c3 :: rest) ≠ none := by
  have hc3 : c3 = ':' := (lowerChar_eq_colon c3).mp h3
  have hre : matchTag ['r', 'e'] (c1 :: c2 :: c3 :: rest) = none := by
    simp only [matchTag, h1]
    simp
  have hfwd : matchTag ['f', 'w', 'd'] (c1 :: c2 :: c3 :: rest) = none := by
    simp only [matchTag, h1, h2, h3, if_true, eq_self_iff_true]
    simp
  have hm : matchTag ['f', 'w'] (c1 :: c2 :: c3 :: rest) = some (c3 :: rest) := by
    simp only [matchTag, h1, h2, if_true, eq_self_iff_true]
  unfold stripTagOnce
  rw [hre, hfwd, hm]
  simp only [Option.none_bind, Option.some_bind, matchColonWs_colon_cons c3 rest hc3]
  simp [Option.orElse]

theorem normalize_subject_no_tag (s : String) :
    ¬ (((normalize_subject s).toList.map lowerChar).take 3 = ['r', 'e', ':'] ∨
       ((normalize_subject s).toList.map lowerChar).take 4 = ['f', 'w', 'd', ':'] ∨
       ((normalize_subject s).toList.map lowerChar).take 3 = ['f', 'w', ':']) := by
  by_cases hs : s = ""
  · subst hs; intro h; simp [normalize_subject] at h
  · rw [normalize_subject, if_neg hs, toList_mk, map_lower_idem]
    set L := stripLoop (trimChars s.toList) with hL
    have hfix : stripTagOnce L = none := stripLoop_fix (trimChars s.toList)
    intro hcon
    rcases hcon with h | h | h
    · obtain ⟨c1, c2, c3, rest, hshape, e1, e2, e3⟩ := take3_shape L _ _ _ h
      rw [hshape] at hfix
      exact stripTagOnce_re c1 c2 c3 rest e1 e2 e3 hfix
    · obtain ⟨c1, c2, c3, c4, rest, hshape, e1, e2, e3, e4⟩ := take4_shape L _ _ _ _ h
      rw [hshape] at hfix
      exact stripTagOnce_fwd c1 c2 c3 c4 rest e1 e2 e3 e4 hfix
    · obtain ⟨c1, c2, c3, rest, hshape, e1, e2, e3⟩ := take3_shape L _ _ _ h
      rw [hshape] at hfix
      exact stripTagOnce_fw c1 c2 c3 rest e1 e2 e3 hfix

example : normalize_subject "Re: Fwd: Quote for Jones" = "quote for jones" := by rfl

example : normalize_subject "  FW:   RE: hello  " = "hello" := by rfl

example : normalize_subject "Re:" = "" := by rfl



/-- Claim C10: subject normalization is idempotent, and its result never begins
with a re, fwd or fw tag followed by a colon, compared case-insensitively. -/
theorem claim_C10_normalize_idempotent (s : String) :
    normalize_subject (normalize_subject s) = normalize_subject s ∧
    ¬ (((normalize_subject s).toList.map lowerChar).take 3 = ['r', 'e', ':'] ∨
       ((normalize_subject s).toList.map lowerChar).take 4 = ['f', 'w', 'd', ':'] ∨
       ((normalize_subject s).toList.map lowerChar).take 3 = ['f', 'w', ':']) :=
  ⟨normalize_subject_idem s, normalize_subject_no_tag s⟩

/- ### Action tier classification: saas_email_processor.AIEmailProcessor -/

inductive Tier
  | auto
  | approve
deriving DecidableEq, Repr

/-- the approval_action_types list set in AIEmailProcessor init. -/
def approval_action_types : List String :=
  ["update_crm", "send_email", "create_calendar_event", "change_deal_status", "delete_task"]

/-- the auto_action_types list set in AIEmailProcessor init; classify_action_tier
does not consult it, testing a shorter literal list instead. -/
def auto_action_types : List String :=
  ["create_task", "set_callback", "set_reminder", "categorise_task", "snooze_task",
   "update_task_notes"]

/-- classify_action_tier: the action_type field, defaulted to the empty string when
absent, is tested against approval_action_types, then against a literal list of
safe types, and anything else defaults to the approval tier. -/
def classify_action_tier (actionType : Option String) : Tier :=
  if actionType.getD "" ∈ approval_action_types then Tier.approve
  else if actionType.getD "" ∈
      ["create_task", "set_callback", "set_reminder", "update_task_notes"] then Tier.auto
  else Tier.approve

/-- Claim C4: tier classification is a pure function of action_type: the five
listed risky types map to the approval tier, the four listed safe types map to
the auto tier, and every other string, the absent value and the empty string map
to the approval tier. -/
theorem claim_C4_tier_pure :
    (∀ a : String, a ∈ approval_action_types → classify_action_tier (some a) = Tier.approve) ∧
    (∀ a : String, a ∈ ["create_task", "set_callback", "set_reminder", "update_task_notes"] →
        classify_action_tier (some a) = Tier.auto) ∧
    (∀ a : String, a ∉ approval_action_types →
        a ∉ ["create_task", "set_callback", "set_reminder", "update_task_notes"] →
        classify_action_tier (some a) = Tier.approve) ∧
    classify_action_tier none = Tier.approve ∧
    classify_action_tier (some "") = Tier.approve := by
  refine ⟨?_, ?_, ?_, ?_, ?_⟩
  · intro a ha
    fin_cases ha <;> rfl
  · intro a ha
    fin_cases ha <;> rfl
  · intro a h1 h2
    unfold classify_action_tier
    simp only [Option.getD_some]
    rw [if_neg h1, if_neg h2]
  · rfl
  · rfl

/-- witness for claim C4 at concrete action types. -/
theorem claim_C4_tier_pure_witness :
    classify_action_tier (some "update_crm") = Tier.approve ∧
    classify_action_tier (some "create_task") = Tier.auto ∧
    classify_action_tier (some "unrecognized_action") = Tier.approve :=
  ⟨claim_C4_tier_pure.1 "update_crm" (by decide),
   claim_C4_tier_pure.2.1 "create_task" (by decide),
   claim_C4_tier_pure.2.2.1 "unrecognized_action" (by decide) (by decide)⟩

/- ### Classification parse fallback: analyze_with_claude and
cloud_email_processor.extract_client_and_task_info -/

/-- transient extracted action record as produced by the classifier. -/
structure EAction where
  actionType : Option String
  title : String
  priority : String
deriving DecidableEq, Repr

/-- the parsed classification response: summary plus action list. -/
structure Analysis where
  summary : String
  actions : List EAction
deriving DecidableEq, Repr

/-- outcome of json.loads on the classification-service reply; the parse itself
is external, so the embedding keys on whether it succeeds. -/
inductive ServiceReply
  | parsedOk (a : Analysis)
  | unparsable (raw : String)
deriving DecidableEq, Repr

/-- analyze_with_claude after the service call: the parsed JSON on success; the
except branch for json.JSONDecodeError logs and returns None. -/
def analyze_with_claude (r : ServiceReply) : Option Analysis :=
  match r with
  | ServiceReply.parsedOk a => some a
  | ServiceReply.unparsable _ => none

/-- the action-dispatch part of process_single_email_body: with no analysis or an
empty action list it returns without side effects; otherwise each action is
classified and collected into the auto-executed and approval-queued lists. -/
def processEmailActions (analysis : Option Analysis) : List EAction × List EAction :=
  match analysis with
  | none => ([], [])
  | some a =>
    if a.actions.isEmpty then ([], [])
    else (a.actions.filter (fun act => classify_action_tier act.actionType == Tier.auto),
          a.actions.filter (fun act => !(classify_action_tier act.actionType == Tier.auto)))

/-- whether sub occurs at the start of s. -/
def listStartsWith : List Char → List Char → Bool
  | _, [] => true
  | [], _ :: _ => false
  | c :: cs, d :: ds => c == d && listStartsWith cs ds

/-- whether sub occurs anywhere inside s, as the Python in operator on strings. -/
def containsSub : List Char → List Char → Bool
  | [], sub => sub.isEmpty
  | c :: cs, sub => listStartsWith (c :: cs) sub || containsSub cs sub

/-- Python split on the at sign taking the first component. -/
def takeBeforeAt (s : String) : String :=
  String.mk (s.toList.takeWhile (fun c => !(c == '@')))

/-- the extraction fallback record from cloud_email_processor. -/
structure ExtractedInfo where
  is_task : Bool
  is_followup : Bool
  client_name : String
  client_email : String
  task_title : String
  task_description : String
  task_priority : String
  suggested_status : String
  note_content : String
deriving DecidableEq, Repr

/-- the except branch of extract_client_and_task_info: on any AI or parse error a
deterministic minimal default is returned. -/
def extract_fallback (subject content senderEmail senderName : String) : ExtractedInfo :=
  { is_task := true
  , is_followup := containsSub (subject.toList.map lowerChar) ['r', 'e', ':']
  , client_name := if senderName ≠ "" then senderName else takeBeforeAt senderEmail
  , client_email := senderEmail
  , task_title := subject
  , task_description := content.take 200
  , task_priority := "medium"
  , suggested_status := "Remember to Callback"
  , note_content := content.take 300 }

/-- Claim C5 counterexample: in the saas processor an unparsable service reply
makes analyze_with_claude return none and the message produces no auto action and
no approval action at all, not the single create_task fallback the claim states. -/
theorem claim_C5_counterexample :
    analyze_with_claude (ServiceReply.unparsable "this is not json") = none ∧
    (processEmailActions (analyze_with_claude (ServiceReply.unparsable "this is not json"))).1 = [] ∧
    (processEmailActions (analyze_with_claude (ServiceReply.unparsable "this is not json"))).2 = [] :=
  ⟨rfl, rfl, rfl⟩

/-- Claim C5 (amended): on a parse failure the saas processor returns none from
analyze_with_claude and the message produces no actions while the pipeline
continues; the deterministic minimal fallback with the subject as title and
medium priority exists only in the legacy cloud processor extraction. -/
theorem claim_C5_parse_fallback (raw subject content senderEmail senderName : String) :
    analyze_with_claude (ServiceReply.unparsable raw) = none ∧
    processEmailActions (analyze_with_claude (ServiceReply.unparsable raw)) = ([], []) ∧
    (extract_fallback subject content senderEmail senderName).is_task = true ∧
    (extract_fallback subject content senderEmail senderName).task_title = subject ∧
    (extract_fallback subject content senderEmail senderName).task_priority = "medium" :=
  ⟨rfl, rfl, rfl, rfl, rfl⟩


/- ### Reminder scheduler: saas_scheduler.check_and_send_reminders -/

inductive TaskStatus
  | pending
  | completed
deriving DecidableEq, Repr

/-- a tasks row as read by the scheduler; timestamps are seconds in the owner
local timezone, due dates are local calendar day indexes, due times are seconds
within the day. -/
structure STask where
  status : TaskStatus
  dueDay : Option Nat
  dueTimeSec : Option Nat
  reminderSentAt : Option Nat
deriving DecidableEq, Repr

inductive ReminderOutcome
  | skipped
  | sentNormal
  | sentOverdue
deriving DecidableEq, Repr

/-- local calendar day of a local timestamp in seconds. -/
def dayOf (t : Nat) : Nat := t / 86400

/-- the per-task body of check_and_send_reminders at local time now, returning the
outcome and the updated task row.  The status and due_time filters mirror the
query and the Python-side filter; tasks due neither today nor yesterday are
skipped; a due_time not naming a valid time of day raises in replace and is
caught, skipping the task; a recorded reminder_sent_at whose local date reaches
the due date skips the task; otherwise the thirty-minute upcoming window sends a
normal reminder, the bounded catch-up window of 1440 minutes sends the overdue
variant, and a successful send stamps reminder_sent_at with now. -/
def reminderStep (now : Nat) (t : STask) : ReminderOutcome × STask :=
  if t.status ≠ TaskStatus.pending then (ReminderOutcome.skipped, t)
  else
    match t.dueTimeSec, t.dueDay with
    | none, _ => (ReminderOutcome.skipped, t)
    | some _, none => (ReminderOutcome.skipped, t)
    | some dt, some dd =>
      if ¬ (dd = dayOf now ∨ dd + 1 = dayOf now) then (ReminderOutcome.skipped, t)
      else if ¬ (dt < 86400) then (ReminderOutcome.skipped, t)
      else
        let taskDue : Nat := dd * 86400 + dt
        let timeDiff : Int := (taskDue : Int) - (now : Int)
        let alreadySent : Bool :=
          match t.reminderSentAt with
          | some s => decide (dd ≤ dayOf s)
          | none => false
        if alreadySent then (ReminderOutcome.skipped, t)
        else if 0 ≤ timeDiff ∧ timeDiff ≤ 1800 then
          (ReminderOutcome.sentNormal, { t with reminderSentAt := some now })
        else if timeDiff < 0 ∧ -86400 ≤ timeDiff then
          (ReminderOutcome.sentOverdue, { t with reminderSentAt := some now })
        else (ReminderOutcome.skipped, t)

/-- Claim C1: for a pending task with a valid due time and no reminder recorded, a
tick with the task due today within the upcoming thirty-minute window sends the
normal reminder and stamps reminder_sent_at; a tick inside the catch-up window
with no send recorded sends the overdue variant; and after any send the stamped
row is skipped unchanged by every later tick, so at most one reminder goes out
per due occurrence across ticks and process restarts. -/
theorem claim_C1_reminder_exactly_once (now dd dt : Nat) (hdt : dt < 86400) :
    (dd = dayOf now → now ≤ dd * 86400 + dt → dd * 86400 + dt ≤ now + 1800 →
      reminderStep now ⟨TaskStatus.pending, some dd, some dt, none⟩ =
        (ReminderOutcome.sentNormal, ⟨TaskStatus.pending, some dd, some dt, some now⟩)) ∧
    ((dd = dayOf now ∨ dd + 1 = dayOf now) →
      dd * 86400 + dt < now → now ≤ dd * 86400 + dt + 86400 →
      reminderStep now ⟨TaskStatus.pending, some dd, some dt, none⟩ =
        (ReminderOutcome.sentOverdue, ⟨TaskStatus.pending, some dd, some dt, some now⟩)) ∧
    (∀ o t2, reminderStep now ⟨TaskStatus.pending, some dd, some dt, none⟩ = (o, t2) →
      o ≠ ReminderOutcome.skipped →
      ∀ now2, reminderStep now2 t2 = (ReminderOutcome.skipped, t2)) := by
  refine ⟨?_, ?_, ?_⟩
  · intro hday hw1 hw2
    simp only [dayOf] at hday
    simp only [reminderStep, dayOf]
    split_ifs <;> first | rfl | (exfalso; omega) | simp_all
  · intro hday hw1 hw2
    simp only [dayOf] at hday
    simp only [reminderStep, dayOf]
    split_ifs <;> first | rfl | (exfalso; omega) | simp_all
  · intro o t2 h ho now2
    simp only [reminderStep, dayOf] at h
    split_ifs at h with hc1 hc2 hc3 hc4 hc5
    all_goals
      first
        | (cases h; exact absurd rfl ho)
        | (cases h
           simp only [reminderStep, dayOf, decide_eq_true_eq]
           split_ifs <;> first | rfl | (exfalso; omega))

/-- witness for claim C1: a task due at 09:00 on day 1 seen at 08:55 fires the
normal reminder and stamps the row. -/
theorem claim_C1_reminder_exactly_once_witness :
    reminderStep 118500 ⟨TaskStatus.pending, some 1, some 32400, none⟩ =
      (ReminderOutcome.sentNormal, ⟨TaskStatus.pending, some 1, some 32400, some 118500⟩) :=
  (claim_C1_reminder_exactly_once 118500 1 32400 (by decide)).1 (by decide) (by decide) (by decide)

/-- Claim C6: a pending task due on an earlier local day with no reminder ever
sent gets no reminder of either kind once now is more than 1440 minutes past the
due instant. -/
theorem claim_C6_catchup_ceiling (now dd dt : Nat) (hdt : dt < 86400)
    (_hearlier : dd < dayOf now) (hlate : dd * 86400 + dt + 86400 < now) :
    reminderStep now ⟨TaskStatus.pending, some dd, some dt, none⟩ =
      (ReminderOutcome.skipped, ⟨TaskStatus.pending, some dd, some dt, none⟩) := by
  simp only [reminderStep, dayOf]
  split_ifs <;> first | rfl | (exfalso; omega)

/-- witness for claim C6: a task due 09:00 on day 0 seen at day 2 midnight is
skipped. -/
theorem claim_C6_catchup_ceiling_witness :
    reminderStep 172800 ⟨TaskStatus.pending, some 0, some 32400, none⟩ =
      (ReminderOutcome.skipped, ⟨TaskStatus.pending, some 0, some 32400, none⟩) :=
  claim_C6_catchup_ceiling 172800 0 32400 (by decide) (by decide) (by decide)


/- ### Daily summary gating: saas_scheduler.get_users_needing_summary
and send_daily_summary -/

/-- the configured summary time as parsed hour and minute, or none when the
value is missing or unparsable, in which case 8:00 is used. -/
def summaryHourMinute (cfg : Option (Nat × Nat)) : Nat × Nat := cfg.getD (8, 0)

/-- the per-user check of get_users_needing_summary at the user local time in
seconds: fire only when the local hour equals the configured hour and the local
minute is below five, and not when last_summary_sent_at converted to the user
timezone falls on the same local date.  The configured minute is parsed but not
consulted by the window check. -/
def needsSummary (nowLocal : Nat) (cfg : Option (Nat × Nat))
    (lastSentLocal : Option Nat) : Bool :=
  let sh := (summaryHourMinute cfg).1
  let hourNow := nowLocal % 86400 / 3600
  let minuteNow := nowLocal % 3600 / 60
  if hourNow = sh ∧ minuteNow < 5 then
    match lastSentLocal with
    | some t => !(dayOf t == dayOf nowLocal)
    | none => true
  else false

/-- the stamping behaviour of send_daily_summary: last_summary_sent_at is set to
the current instant both when the email is sent and when an empty report is
skipped; a failed send leaves the stamp unchanged. -/
def sendDailySummaryStamp (nowLocal : Nat) (sendOk : Bool) (hasContent : Bool)
    (lastSentLocal : Option Nat) : Option Nat :=
  if ¬ hasContent then some nowLocal
  else if sendOk then some nowLocal
  else lastSentLocal

/-- Claim C9 counterexample: a user whose configured summary time is 08:30 is
selected at local time 08:02, which is 28 minutes before the configured time and
outside any five-minute window around it; the window check uses only the
configured hour. -/
theorem claim_C9_counterexample :
    needsSummary 28920 (some (8, 30)) none = true ∧
    8 * 3600 + 30 * 60 - 28920 = 1680 ∧ 5 * 60 < 1680 :=
  ⟨rfl, by norm_num, by norm_num⟩

/-- Claim C9 (amended): a summary fires only when the user local hour equals the
configured hour with local minute below five, the configured minute being
ignored; it does not fire when last_summary_sent_at falls on the current local
date; and once send_daily_summary stamps the current instant, no tick later the
same local day fires again, so at most one summary goes out per local calendar
day. -/
theorem claim_C9_summary_window (nowLocal : Nat) (cfg : Option (Nat × Nat))
    (lastSent : Option Nat) :
    (needsSummary nowLocal cfg lastSent = true →
      nowLocal % 86400 / 3600 = (summaryHourMinute cfg).1 ∧ nowLocal % 3600 / 60 < 5) ∧
    (∀ t, lastSent = some t → dayOf t = dayOf nowLocal →
      needsSummary nowLocal cfg lastSent = false) ∧
    (∀ sendOk hasContent now2, (sendOk = true ∨ hasContent = false) →
      dayOf now2 = dayOf nowLocal →
      needsSummary now2 cfg (sendDailySummaryStamp nowLocal sendOk hasContent lastSent) = false) := by
  refine ⟨?_, ?_, ?_⟩
  · intro h
    simp only [needsSummary] at h
    split_ifs at h with hc
    exact hc
  · intro t ht hd
    subst ht
    simp only [needsSummary]
    split_ifs with hc
    · simp [dayOf] at hd ⊢
      omega
    · rfl
  · intro sendOk hasContent now2 hok hd
    have hstamp : sendDailySummaryStamp nowLocal sendOk hasContent lastSent = some nowLocal := by
      rcases hok with h | h
      · unfold sendDailySummaryStamp
        split_ifs <;> rfl
      · unfold sendDailySummaryStamp
        rw [if_pos (by simp [h])]
    rw [hstamp]
    simp only [needsSummary]
    split_ifs with hc
    · simp [dayOf] at hd ⊢
      omega
    · rfl

/-- witness for claim C9 at a concrete firing instant and a same-day repeat. -/
theorem claim_C9_summary_window_witness :
    needsSummary 28860 (some (8, 0)) (some 28810) = false :=
  (claim_C9_summary_window 28860 (some (8, 0)) (some 28810)).2.1 28810 rfl (by decide)

/- ### Connection sync cadence: _get_active_connections, process_connection
and _update_last_sync -/

/-- an email_connections row as the poller sees it; times are UTC seconds. -/
structure Connection where
  lastSyncAt : Option Nat
  syncFrequencyMinutes : Option Nat
  imapPassword : String
deriving DecidableEq, Repr

/-- the due filter of _get_active_connections: a connection with no last_sync_at
is due, otherwise due exactly when now has reached last_sync_at plus the sync
frequency, defaulted to fifteen minutes. -/
def connectionDue (now : Nat) (c : Connection) : Bool :=
  match c.lastSyncAt with
  | none => true
  | some t => decide (t + (c.syncFrequencyMinutes.getD 15) * 60 ≤ now)

/-- the mailbox outcomes one process_connection cycle can observe. -/
inductive MailboxOutcome
  | searchEmpty
  | allProcessed
  | processedBatch
  | raisedError
deriving DecidableEq, Repr

/-- process_connection for one connection: with no IMAP password configured it
returns before opening the mailbox, leaving last_sync_at untouched; on every
other path, including an empty seven-day search, zero new mail, a processed
batch and a raised and caught error, it stamps last_sync_at with now. -/
def process_connection (now : Nat) (c : Connection) (outcome : MailboxOutcome) : Connection :=
  if c.imapPassword = "" then c
  else
    match outcome with
    | MailboxOutcome.searchEmpty => { c with lastSyncAt := some now }
    | MailboxOutcome.allProcessed => { c with lastSyncAt := some now }
    | MailboxOutcome.processedBatch => { c with lastSyncAt := some now }
    | MailboxOutcome.raisedError => { c with lastSyncAt := some now }

/-- Claim C8 counterexample: a due connection whose IMAP password is empty is
skipped without stamping last_sync_at, so not every poll cycle stamps it. -/
theorem claim_C8_counterexample :
    process_connection 1200 ⟨some 0, some 15, ""⟩ MailboxOutcome.searchEmpty =
      ⟨some 0, some 15, ""⟩ ∧
    (process_connection 1200 ⟨some 0, some 15, ""⟩ MailboxOutcome.searchEmpty).lastSyncAt ≠
      some 1200 :=
  ⟨rfl, by decide⟩

/-- Claim C8 (amended): a connection is polled exactly when now has reached
last_sync_at plus sync_frequency or last_sync_at is unset; and after every poll
cycle that gets past the credential check, including cycles that found no new
mail and cycles whose mailbox processing raised an error, last_sync_at is
stamped to the current time, while a connection with no IMAP password is left
untouched. -/
theorem claim_C8_sync_due_and_stamp (now : Nat) (c : Connection) (outcome : MailboxOutcome) :
    (connectionDue now c = true ↔
      (c.lastSyncAt = none ∨
        ∃ t, c.lastSyncAt = some t ∧ t + (c.syncFrequencyMinutes.getD 15) * 60 ≤ now)) ∧
    (c.imapPassword ≠ "" → (process_connection now c outcome).lastSyncAt = some now) ∧
    (c.imapPassword = "" → process_connection now c outcome = c) := by
  refine ⟨?_, ?_, ?_⟩
  · unfold connectionDue
    cases h : c.lastSyncAt with
    | none => simp
    | some t => simp
  · intro hp
    unfold process_connection
    rw [if_neg hp]
    cases outcome <;> rfl
  · intro hp
    unfold process_connection
    rw [if_pos hp]

/-- witness for claim C8: a configured connection is stamped after an error
cycle. -/
theorem claim_C8_sync_due_and_stamp_witness :
    (process_connection 900 ⟨some 0, some 15, "secret"⟩ MailboxOutcome.raisedError).lastSyncAt =
      some 900 :=
  (claim_C8_sync_due_and_stamp 900 ⟨some 0, some 15, "secret"⟩ MailboxOutcome.raisedError).2.1
    (by decide)


/- ### One poll cycle of the mailbox poller: the message loop of
process_connection -/

/-- a fetched candidate message of one cycle. -/
structure InMsg where
  uid : String
  messageId : String
  subject : String
  fetchOk : Bool
deriving DecidableEq, Repr

/-- the in-cycle accumulator: normalized subjects seen this cycle, messages
handed to classification, and the ledger marks written. -/
structure CycleState where
  seenSubjects : List String
  classified : List InMsg
  marked : List String
  skippedDupes : Nat
deriving DecidableEq, Repr

/-- the loop body of process_connection for one candidate: a failed fetch is
ledger-marked under a synthetic identifier; a message whose uid or message id is
already in the ledger set loaded at cycle start is passed over; a nonempty
normalized subject already seen in this cycle is ledger-marked without
classification; anything else is classified, ledger-marked, and its nonempty
normalized subject recorded. -/
def cycleStep (processed : List String) (st : CycleState) (m : InMsg) : CycleState :=
  if m.fetchOk = false then
    { st with marked := ("fetch-fail-" ++ m.uid) :: st.marked }
  else if m.uid ∈ processed ∨ m.messageId ∈ processed then st
  else
    let norm := normalize_subject m.subject
    if norm ≠ "" ∧ norm ∈ st.seenSubjects then
      { st with marked := m.messageId :: st.marked, skippedDupes := st.skippedDupes + 1 }
    else
      { st with
        seenSubjects := if norm ≠ "" then norm :: st.seenSubjects else st.seenSubjects,
        classified := m :: st.classified,
        marked := m.messageId :: st.marked }

/-- one poll cycle over the ledger-filtered candidates in processing order. -/
def runCycle (processed : List String) (msgs : List InMsg) : CycleState :=
  msgs.foldl (cycleStep processed) ⟨[], [], [], 0⟩

/-- how many classification calls of this cycle were for messages whose
normalized subject is s. -/
def classifiedWith (s : String) (st : CycleState) : Nat :=
  (st.classified.filter (fun m => normalize_subject m.subject == s)).length

theorem cycle_classified_count (processed : List String) (s : String) (hs : s ≠ "") :
    ∀ (msgs : List InMsg) (st : CycleState),
      (∀ m ∈ msgs, m.fetchOk = true ∧ m.uid ∉ processed ∧ m.messageId ∉ processed) →
      classifiedWith s (msgs.foldl (cycleStep processed) st) =
        classifiedWith s st +
          (if s ∈ st.seenSubjects then 0
           else if ∃ m ∈ msgs, normalize_subject m.subject = s then 1 else 0) := by
  intro msgs
  induction msgs with
  | nil =>
    intro st hall
    simp
  | cons m ms ih =>
    intro st hall
    obtain ⟨hok, hu, hm⟩ := hall m (by simp)
    have hall2 : ∀ x ∈ ms, x.fetchOk = true ∧ x.uid ∉ processed ∧ x.messageId ∉ processed :=
      fun x hx => hall x (by simp [hx])
    rw [List.foldl_cons]
    have hstep : cycleStep processed st m =
        (if normalize_subject m.subject ≠ "" ∧ normalize_subject m.subject ∈ st.seenSubjects then
          { st with marked := m.messageId :: st.marked, skippedDupes := st.skippedDupes + 1 }
        else
          { st with
            seenSubjects := if normalize_subject m.subject ≠ "" then
              normalize_subject m.subject :: st.seenSubjects else st.seenSubjects,
            classified := m :: st.classified,
            marked := m.messageId :: st.marked }) := by
      unfold cycleStep
      rw [if_neg (by simp [hok]), if_neg (by simp [hu, hm])]
    by_cases hnorm : normalize_subject m.subject = s
    · by_cases hseen : s ∈ st.seenSubjects
      · rw [hstep, if_pos ⟨by rw [hnorm]; exact hs, by rw [hnorm]; exact hseen⟩]
        rw [ih _ hall2]
        simp only [classifiedWith]
        rw [if_pos hseen, if_pos hseen]
      · rw [hstep, if_neg (by rw [hnorm]; exact fun hc => hseen hc.2)]
        rw [ih _ hall2]
        have hcf : classifiedWith s
            { st with
              seenSubjects := if normalize_subject m.subject ≠ "" then
                normalize_subject m.subject :: st.seenSubjects else st.seenSubjects,
              classified := m :: st.classified,
              marked := m.messageId :: st.marked } = classifiedWith s st + 1 := by
          simp only [classifiedWith, List.filter_cons]
          rw [if_pos (by simp [hnorm])]
          simp [Nat.add_comm]
        rw [hcf]
        have hseen2 : s ∈ (if normalize_subject m.subject ≠ "" then
            normalize_subject m.subject :: st.seenSubjects else st.seenSubjects) := by
          rw [if_pos (by rw [hnorm]; exact hs)]
          simp [hnorm]
        rw [if_pos hseen2, if_neg hseen, if_pos ⟨m, by simp, hnorm⟩]
    · by_cases hdup : normalize_subject m.subject ≠ "" ∧ normalize_subject m.subject ∈ st.seenSubjects
      · rw [hstep, if_pos hdup, ih _ hall2]
        simp only [classifiedWith]
        congr 1
        by_cases hseen : s ∈ st.seenSubjects
        · rw [if_pos hseen, if_pos hseen]
        · rw [if_neg hseen, if_neg hseen]
          have : (∃ x ∈ m :: ms, normalize_subject x.subject = s) ↔
              (∃ x ∈ ms, normalize_subject x.subject = s) := by
            simp only [List.mem_cons]
            constructor
            · rintro ⟨x, hx | hx, hxs⟩
              · subst hx; exact absurd hxs hnorm
              · exact ⟨x, hx, hxs⟩
            · rintro ⟨x, hx, hxs⟩
              exact ⟨x, Or.inr hx, hxs⟩
          by_cases hex : ∃ x ∈ ms, normalize_subject x.subject = s
          · rw [if_pos hex, if_pos (this.mpr hex)]
          · rw [if_neg hex, if_neg (fun hc => hex (this.mp hc))]
      · rw [hstep, if_neg hdup, ih _ hall2]
        have hcf : classifiedWith s
            { st with
              seenSubjects := if normalize_subject m.subject ≠ "" then
                normalize_subject m.subject :: st.seenSubjects else st.seenSubjects,
              classified := m :: st.classified,
              marked := m.messageId :: st.marked } = classifiedWith s st := by
          simp only [classifiedWith, List.filter_cons]
          rw [if_neg (by simp [hnorm])]
        rw [hcf]
        have hseeniff : s ∈ (if normalize_subject m.subject ≠ "" then
            normalize_subject m.subject :: st.seenSubjects else st.seenSubjects) ↔
            s ∈ st.seenSubjects := by
          by_cases he : normalize_subject m.subject ≠ ""
          · rw [if_pos he]
            simp only [List.mem_cons]
            constructor
            · rintro (h | h)
              · exact absurd h.symm hnorm
              · exact h
            · exact fun h => Or.inr h
          · rw [if_neg he]
        congr 1
        by_cases hseen : s ∈ st.seenSubjects
        · rw [if_pos hseen, if_pos (hseeniff.mpr hseen)]
        · rw [if_neg hseen, if_neg (fun hc => hseen (hseeniff.mp hc))]
          have : (∃ x ∈ m :: ms, normalize_subject x.subject = s) ↔
              (∃ x ∈ ms, normalize_subject x.subject = s) := by
            simp only [List.mem_cons]
            constructor
            · rintro ⟨x, hx | hx, hxs⟩
              · subst hx; exact absurd hxs hnorm
              · exact ⟨x, hx, hxs⟩
            · rintro ⟨x, hx, hxs⟩
              exact ⟨x, Or.inr hx, hxs⟩
          by_cases hex : ∃ x ∈ ms, normalize_subject x.subject = s
          · rw [if_pos hex, if_pos (this.mpr hex)]
          · rw [if_neg hex, if_neg (fun hc => hex (this.mp hc))]

theorem cycle_marked_mono (processed : List String) :
    ∀ (msgs : List InMsg) (st : CycleState) (x : String), x ∈ st.marked →
      x ∈ (msgs.foldl (cycleStep processed) st).marked := by
  intro msgs
  induction msgs with
  | nil => intro st x hx; simpa using hx
  | cons m ms ih =>
    intro st x hx
    rw [List.foldl_cons]
    apply ih
    simp only [cycleStep]
    split_ifs <;> simp [hx]

theorem cycle_all_marked (processed : List String) :
    ∀ (msgs : List InMsg) (st : CycleState),
      (∀ m ∈ msgs, m.fetchOk = true ∧ m.uid ∉ processed ∧ m.messageId ∉ processed) →
      ∀ m ∈ msgs, m.messageId ∈ (msgs.foldl (cycleStep processed) st).marked := by
  intro msgs
  induction msgs with
  | nil => intro st hall m hm; simp at hm
  | cons x xs ih =>
    intro st hall m hm
    rw [List.foldl_cons]
    rcases List.mem_cons.mp hm with h | h
    · subst h
      apply cycle_marked_mono
      obtain ⟨hok, hu, hmsg⟩ := hall m (by simp)
      simp only [cycleStep]
      rw [if_neg (by simp [hok]), if_neg (by simp [hu, hmsg])]
      split_ifs <;> simp
    · exact ih _ (fun y hy => hall y (by simp [hy])) m h

/-- Claim C7 counterexample: two candidates in one cycle whose subjects both
normalize to the empty string have equal normalized subjects, yet both are
classified: the cycle makes two classification calls for that normalized
subject because the collapse only applies to nonempty normalized subjects. -/
theorem claim_C7_counterexample :
    normalize_subject "Re:" = normalize_subject "Fwd:" ∧
    classifiedWith ""
      (runCycle [] [⟨"1", "m1", "Re:", true⟩, ⟨"2", "m2", "Fwd:", true⟩]) = 2 :=
  ⟨rfl, rfl⟩

/-- Claim C7 (amended): within one poll cycle over candidates that pass the
ledger and fetch checks, for every nonempty normalized subject occurring among
the candidates the cycle makes exactly one classification call, and every
candidate, the collapsed duplicates included, is marked in the processed-items
ledger. -/
theorem claim_C7_subject_collapse (processed : List String) (msgs : List InMsg) (s : String)
    (hs : s ≠ "")
    (hall : ∀ m ∈ msgs, m.fetchOk = true ∧ m.uid ∉ processed ∧ m.messageId ∉ processed) :
    ((∃ m ∈ msgs, normalize_subject m.subject = s) →
      classifiedWith s (runCycle processed msgs) = 1) ∧
    (∀ m ∈ msgs, m.messageId ∈ (runCycle processed msgs).marked) := by
  constructor
  · intro hex
    unfold runCycle
    rw [cycle_classified_count processed s hs msgs _ hall]
    have h0 : classifiedWith s ⟨[], [], [], 0⟩ = 0 := rfl
    rw [h0]
    rw [if_neg (by simp), if_pos hex]
  · intro m hm
    exact cycle_all_marked processed msgs _ hall m hm

/-- witness for claim C7: a cycle with an original and a reply classifies once
and marks both. -/
theorem claim_C7_subject_collapse_witness :
    classifiedWith "quote for jones"
      (runCycle [] [⟨"1", "m1", "Quote for Jones", true⟩,
                    ⟨"2", "m2", "Re: Quote for Jones", true⟩]) = 1 :=
  (claim_C7_subject_collapse [] [⟨"1", "m1", "Quote for Jones", true⟩,
      ⟨"2", "m2", "Re: Quote for Jones", true⟩] "quote for jones"
    (by decide) (by decide)).1 ⟨⟨"1", "m1", "Quote for Jones", true⟩, by decide, by rfl⟩


/- ### Pending-action approval state machine: approval_routes.approve_action,
approval_routes.reject_action and AIEmailProcessor.reject_action -/

inductive PStatus
  | pending
  | approved
  | rejected
  | failed
  | expired
deriving DecidableEq, Repr

/-- a pending_actions row: unique token, action type, the payload fields the
route executors read, and the state-machine status. -/
structure PendingAction where
  token : String
  actionType : String
  title : String
  descr : String
  status : PStatus
deriving DecidableEq, Repr

/-- a tasks row as inserted by the approval route executors; the per-type title
and description formatting of the route is abstracted into the stored fields,
with the category recording the executor branch taken. -/
structure TaskRow where
  title : String
  descr : String
  category : Option String
deriving DecidableEq, Repr

/-- the two tables the approval routes touch. -/
structure Store where
  pendingActions : List PendingAction
  tasks : List TaskRow
deriving DecidableEq, Repr

inductive ClickResult
  | approvedPage (title : String)
  | rejectedPage (title : String)
  | alreadyProcessed (st : PStatus)
  | notFound
deriving DecidableEq, Repr

/-- the per-type tasks insert of approve_action: update_crm, send_email,
create_calendar_event and change_deal_status each materialize one pending task
with their own category, and unknown types fall back to a plain task. -/
def taskForAction (pa : PendingAction) : TaskRow :=
  if pa.actionType = "update_crm" then ⟨pa.title, pa.descr, some "crm"⟩
  else if pa.actionType = "send_email" then ⟨pa.title, pa.descr, some "email"⟩
  else if pa.actionType = "create_calendar_event" then ⟨pa.title, pa.descr, some "calendar"⟩
  else if pa.actionType = "change_deal_status" then ⟨pa.title, pa.descr, some "deals"⟩
  else ⟨pa.title, pa.descr, none⟩

/-- the supabase select by token and status pending: the first matching row. -/
def findPendingRow (token : String) (l : List PendingAction) : Option PendingAction :=
  l.find? (fun pa => pa.token == token && pa.status == PStatus.pending)

/-- the select by token only, used for the already-processed page. -/
def findRow (token : String) (l : List PendingAction) : Option PendingAction :=
  l.find? (fun pa => pa.token == token)

/-- the update keyed on token: set every row holding this token to the given
status. -/
def setStatus (token : String) (st : PStatus) (l : List PendingAction) : List PendingAction :=
  l.map (fun pa => if pa.token == token then { pa with status := st } else pa)

/-- approval_routes.approve_action: select the row with this token in status
pending; when absent, a second select by token distinguishes an already-processed
token, answered without side effects, from an unknown one; when present, insert
the task for the action type and mark the row approved. -/
def approve_action (token : String) (db : Store) : ClickResult × Store :=
  match findPendingRow token db.pendingActions with
  | none =>
    match findRow token db.pendingActions with
    | some pa => (ClickResult.alreadyProcessed pa.status, db)
    | none => (ClickResult.notFound, db)
  | some pa =>
    (ClickResult.approvedPage pa.title,
      { pendingActions := setStatus token PStatus.approved db.pendingActions,
        tasks := taskForAction pa :: db.tasks })

/-- approval_routes.reject_action: the same pending guard, marking the row
rejected with no task or note insert. -/
def reject_action_route (token : String) (db : Store) : ClickResult × Store :=
  match findPendingRow token db.pendingActions with
  | none =>
    match findRow token db.pendingActions with
    | some pa => (ClickResult.alreadyProcessed pa.status, db)
    | none => (ClickResult.notFound, db)
  | some pa =>
    (ClickResult.rejectedPage pa.title,
      { pendingActions := setStatus token PStatus.rejected db.pendingActions,
        tasks := db.tasks })

/-- AIEmailProcessor.reject_action: updates the row with this token to rejected
unconditionally, with no guard on the current status. -/
def reject_action_processor (token : String) (db : Store) : Store :=
  { db with pendingActions := setStatus token PStatus.rejected db.pendingActions }

/-- status of the row holding this token. -/
def statusOf (token : String) (db : Store) : Option PStatus :=
  (findRow token db.pendingActions).map (fun pa => pa.status)

theorem findPendingRow_none (token : String) (pa : PendingAction) (l : List PendingAction)
    (huniq : ∀ q ∈ l, q.token = token → q = pa) (hst : pa.status ≠ PStatus.pending) :
    findPendingRow token l = none := by
  unfold findPendingRow
  rw [List.find?_eq_none]
  intro x hx h
  simp only [Bool.and_eq_true, beq_iff_eq] at h
  have hxp := huniq x hx h.1
  rw [hxp] at h
  exact hst h.2

theorem findRow_unique (token : String) (pa : PendingAction) :
    ∀ l : List PendingAction, pa ∈ l → pa.token = token →
      (∀ q ∈ l, q.token = token → q = pa) → findRow token l = some pa := by
  intro l
  induction l with
  | nil => intro h; simp at h
  | cons x xs ih =>
    intro hmem htok huniq
    unfold findRow
    by_cases hx : x.token = token
    · have hxp : x = pa := huniq x (by simp) hx
      subst hxp
      rw [List.find?_cons_of_pos _ (by simp [hx])]
    · rw [List.find?_cons_of_neg _ (by simp [hx])]
      apply ih
      · rcases List.mem_cons.mp hmem with h | h
        · subst h; exact absurd htok hx
        · exact h
      · exact htok
      · exact fun q hq hqt => huniq q (by simp [hq]) hqt

theorem findPendingRow_unique (token : String) (pa : PendingAction) :
    ∀ l : List PendingAction, pa ∈ l → pa.token = token → pa.status = PStatus.pending →
      (∀ q ∈ l, q.token = token → q = pa) → findPendingRow token l = some pa := by
  intro l
  induction l with
  | nil => intro h; simp at h
  | cons x xs ih =>
    intro hmem htok hst huniq
    unfold findPendingRow
    by_cases hx : x.token = token
    · have hxp : x = pa := huniq x (by simp) hx
      subst hxp
      rw [List.find?_cons_of_pos _ (by simp [hx, hst])]
    · rw [List.find?_cons_of_neg _ (by simp [hx])]
      apply ih
      · rcases List.mem_cons.mp hmem with h | h
        · subst h; exact absurd htok hx
        · exact h
      · exact htok
      · exact hst
      · exact fun q hq hqt => huniq q (by simp [hq]) hqt

theorem setStatus_mem (token : String) (st : PStatus) (pa : PendingAction)
    (l : List PendingAction) (hmem : pa ∈ l) (htok : pa.token = token) :
    { pa with status := st } ∈ setStatus token st l := by
  unfold setStatus
  refine List.mem_map.mpr ⟨pa, hmem, ?_⟩
  rw [if_pos (by simp [htok])]

theorem setStatus_uniq (token : String) (st : PStatus) (pa : PendingAction)
    (l : List PendingAction) (huniq : ∀ q ∈ l, q.token = token → q = pa) :
    ∀ q ∈ setStatus token st l, q.token = token → q = { pa with status := st } := by
  intro q hq hqt
  unfold setStatus at hq
  rcases List.mem_map.mp hq with ⟨q0, hq0, hfq⟩
  by_cases h0 : q0.token = token
  · have hq0p : q0 = pa := huniq q0 hq0 h0
    subst hq0p
    rw [if_pos (by simp [h0])] at hfq
    exact hfq.symm
  · rw [if_neg (by simp [h0])] at hfq
    subst hfq
    exact absurd hqt h0

/-- Claim C2: with a unique row for this token, approve on a token no longer
pending mutates nothing and answers already-processed with the recorded status;
and approve on a pending token inserts exactly one task, marks the row approved,
and a second approve leaves the store byte-for-byte unchanged and answers
already-processed with approved, so the action runs exactly once. -/
theorem claim_C2_approval_idempotent (db : Store) (pa : PendingAction) (token : String)
    (hmem : pa ∈ db.pendingActions) (htok : pa.token = token)
    (huniq : ∀ q ∈ db.pendingActions, q.token = token → q = pa) :
    (pa.status ≠ PStatus.pending →
      approve_action token db = (ClickResult.alreadyProcessed pa.status, db)) ∧
    (pa.status = PStatus.pending →
      ∃ db1, approve_action token db = (ClickResult.approvedPage pa.title, db1) ∧
        db1.tasks = taskForAction pa :: db.tasks ∧
        statusOf token db1 = some PStatus.approved ∧
        approve_action token db1 = (ClickResult.alreadyProcessed PStatus.approved, db1)) := by
  constructor
  · intro hst
    unfold approve_action
    rw [findPendingRow_none token pa db.pendingActions huniq hst,
      findRow_unique token pa db.pendingActions hmem htok huniq]
  · intro hst
    have hfind := findPendingRow_unique token pa db.pendingActions hmem htok hst huniq
    refine ⟨{ pendingActions := setStatus token PStatus.approved db.pendingActions,
              tasks := taskForAction pa :: db.tasks }, ?_, rfl, ?_, ?_⟩
    · unfold approve_action
      rw [hfind]
    · unfold statusOf
      rw [findRow_unique token { pa with status := PStatus.approved } _
        (setStatus_mem token PStatus.approved pa db.pendingActions hmem htok)
        (by simp [htok]) (setStatus_uniq token PStatus.approved pa db.pendingActions huniq)]
      rfl
    · unfold approve_action
      rw [findPendingRow_none token { pa with status := PStatus.approved } _
        (setStatus_uniq token PStatus.approved pa db.pendingActions huniq) (by simp),
        findRow_unique token { pa with status := PStatus.approved } _
          (setStatus_mem token PStatus.approved pa db.pendingActions hmem htok)
          (by simp [htok]) (setStatus_uniq token PStatus.approved pa db.pendingActions huniq)]

/-- witness for claim C2: approving a fresh pending action once executes it and
a second click answers already-processed. -/
theorem claim_C2_approval_idempotent_witness :
    ∃ db1, approve_action "tok1"
        (Store.mk [⟨"tok1", "update_crm", "call Jones", "note", PStatus.pending⟩] []) =
        (ClickResult.approvedPage "call Jones", db1) ∧
      db1.tasks = [⟨"call Jones", "note", some "crm"⟩] ∧
      statusOf "tok1" db1 = some PStatus.approved ∧
      approve_action "tok1" db1 = (ClickResult.alreadyProcessed PStatus.approved, db1) :=
  (claim_C2_approval_idempotent
      (Store.mk [⟨"tok1", "update_crm", "call Jones", "note", PStatus.pending⟩] [])
      ⟨"tok1", "update_crm", "call Jones", "note", PStatus.pending⟩ "tok1"
      (by decide) (by decide) (by decide)).2 rfl

/-- Claim C3 counterexample: the processor-level reject_action has no pending
guard, so rejecting a token whose action is already approved overwrites the
terminal status with rejected instead of leaving it unchanged. -/
theorem claim_C3_counterexample :
    statusOf "tok1"
        (Store.mk [⟨"tok1", "update_crm", "t", "d", PStatus.approved⟩] []) =
      some PStatus.approved ∧
    statusOf "tok1" (reject_action_processor "tok1"
        (Store.mk [⟨"tok1", "update_crm", "t", "d", PStatus.approved⟩] [])) =
      some PStatus.rejected :=
  ⟨rfl, rfl⟩

/-- Claim C3 (amended): through the click routes the status moves only from
pending to one terminal state: approve and the route-level reject leave a row
already in a terminal state unchanged, answering already-processed, and move a
pending row to approved and rejected respectively; the processor-level
reject_action however updates unconditionally and overwrites any status,
terminal ones included, with rejected. -/
theorem claim_C3_state_machine (db : Store) (pa : PendingAction) (token : String)
    (hmem : pa ∈ db.pendingActions) (htok : pa.token = token)
    (huniq : ∀ q ∈ db.pendingActions, q.token = token → q = pa) :
    (pa.status ≠ PStatus.pending →
      approve_action token db = (ClickResult.alreadyProcessed pa.status, db) ∧
      reject_action_route token db = (ClickResult.alreadyProcessed pa.status, db)) ∧
    (pa.status = PStatus.pending →
      statusOf token (reject_action_route token db).2 = some PStatus.rejected ∧
      statusOf token (approve_action token db).2 = some PStatus.approved) ∧
    statusOf token (reject_action_processor token db) = some PStatus.rejected := by
  refine ⟨?_, ?_, ?_⟩
  · intro hst
    constructor
    · unfold approve_action
      rw [findPendingRow_none token pa db.pendingActions huniq hst,
        findRow_unique token pa db.pendingActions hmem htok huniq]
    · unfold reject_action_route
      rw [findPendingRow_none token pa db.pendingActions huniq hst,
        findRow_unique token pa db.pendingActions hmem htok huniq]
  · intro hst
    have hfind := findPendingRow_unique token pa db.pendingActions hmem htok hst huniq
    constructor
    · unfold reject_action_route
      rw [hfind]
      unfold statusOf
      rw [findRow_unique token { pa with status := PStatus.rejected } _
        (setStatus_mem token PStatus.rejected pa db.pendingActions hmem htok)
        (by simp [htok]) (setStatus_uniq token PStatus.rejected pa db.pendingActions huniq)]
      rfl
    · unfold approve_action
      rw [hfind]
      unfold statusOf
      rw [findRow_unique token { pa with status := PStatus.approved } _
        (setStatus_mem token PStatus.approved pa db.pendingActions hmem htok)
        (by simp [htok]) (setStatus_uniq token PStatus.approved pa db.pendingActions huniq)]
      rfl
  · unfold reject_action_processor statusOf
    rw [findRow_unique token { pa with status := PStatus.rejected } _
      (setStatus_mem token PStatus.rejected pa db.pendingActions hmem htok)
      (by simp [htok]) (setStatus_uniq token PStatus.rejected pa db.pendingActions huniq)]
    rfl

/-- witness for claim C3: rejecting an already-approved token through the route
answers already-processed without change, while the processor-level reject
overwrites the status. -/
theorem claim_C3_state_machine_witness :
    reject_action_route "tok1"
        (Store.mk [⟨"tok1", "send_email", "t", "d", PStatus.approved⟩] []) =
      (ClickResult.alreadyProcessed PStatus.approved,
        Store.mk [⟨"tok1", "send_email", "t", "d", PStatus.approved⟩] []) :=
  ((claim_C3_state_machine
      (Store.mk [⟨"tok1", "send_email", "t", "d", PStatus.approved⟩] [])
      ⟨"tok1", "send_email", "t", "d", PStatus.approved⟩ "tok1"
      (by decide) (by decide) (by decide)).1 (by decide)).2

end Jottask
